import Mathlib

/-!
Verification development for the ghmcp repository.

The repository indexes local Git working trees: `utility.get_repo` probes a
single candidate path, `server.GitHubRepoIndexer` filters an ordered list of
candidate paths down to the valid repositories, `server.MCPGitHubServer`
wraps the indexer, and `main.start_server` is the process-level construction
boundary.

The filesystem and the external GitPython library are modelled by an explicit
`FS` value: tables of directories, regular files, permission-denied paths,
whole-path symbolic links and git metadata.  The operating-system path
functions that the code calls (`os.path.abspath`, `os.path.exists`,
`os.path.isdir`) are modelled as pure functions over that state; in
particular `os.path.abspath` is the lexical normalisation that Python
performs (join with the working directory, then resolve `.` and `..`
segments) and does NOT resolve symbolic links.
-/

namespace Ghmcp

/-- One path segment, as a list of characters. -/
abbrev Seg := List Char

/-- Split a character list on the slash character, like the posix
    `split('/')`.  The result is never empty. -/
def splitSeg : List Char → List Seg
  | [] => [[]]
  | c :: cs =>
    if c = '/' then [] :: splitSeg cs
    else
      match splitSeg cs with
      | [] => [[c]]
      | s :: rest => (c :: s) :: rest

/-- Join segments with a slash separator, the inverse of `splitSeg`. -/
def joinSegs : List Seg → List Char
  | [] => []
  | [a] => a
  | a :: b :: rest => a ++ '/' :: joinSegs (b :: rest)

/-- A segment is clean when it is neither empty nor a relative segment. -/
def cleanSeg (c : Seg) : Prop := c ≠ [] ∧ c ≠ ['.'] ∧ c ≠ ['.', '.']

instance (c : Seg) : Decidable (cleanSeg c) := by unfold cleanSeg; infer_instance

/-- Normalisation pass of posix `normpath` on the segments of an absolute
    path: empty and dot segments are dropped, a dot-dot segment removes the
    previous retained segment (and is dropped at the root). -/
def normAbsSegs : List Seg → List Seg → List Seg
  | [], acc => acc.reverse
  | c :: cs, acc =>
    if c = [] ∨ c = ['.'] then normAbsSegs cs acc
    else if c = ['.', '.'] then normAbsSegs cs acc.tail
    else normAbsSegs cs (c :: acc)

/-- Model of posix `normpath` restricted to absolute paths: the result is a
    leading slash followed by the cleaned segments. -/
def normpathAbs (p : String) : String :=
  String.mk ('/' :: joinSegs (normAbsSegs (splitSeg p.toList) []))

/-- A string denotes an absolute path when it starts with a slash. -/
def isAbsStr (p : String) : Bool := p.toList.head? = some '/'

/-- Model of Python `os.path.abspath`: join the current working directory
    with the path unless the path is already absolute, then normalise
    lexically.  Symbolic links are NOT resolved. -/
def abspath (cwd p : String) : String :=
  if isAbsStr p then normpathAbs p else normpathAbs (cwd ++ "/" ++ p)

theorem splitSeg_ne_nil (l : List Char) : splitSeg l ≠ [] := by
  induction l with
  | nil => simp [splitSeg]
  | cons c cs ih =>
    by_cases h : c = '/'
    · simp [splitSeg, h]
    · simp only [splitSeg, if_neg h]
      cases hs : splitSeg cs with
      | nil => simp
      | cons s rest => simp

theorem mem_splitSeg_no_slash (l : List Char) : ∀ s ∈ splitSeg l, '/' ∉ s := by
  induction l with
  | nil => intro s hs; simp [splitSeg] at hs; simp [hs]
  | cons c cs ih =>
    intro s hs
    by_cases h : c = '/'
    · simp only [splitSeg, if_pos h, List.mem_cons] at hs
      rcases hs with h1 | h2
      · simp [h1]
      · exact ih s h2
    · simp only [splitSeg, if_neg h] at hs
      cases hcs : splitSeg cs with
      | nil => exact absurd hcs (splitSeg_ne_nil cs)
      | cons t rest =>
        rw [hcs] at hs
        simp only [List.mem_cons] at hs
        rcases hs with h1 | h2
        · subst h1
          intro hmem
          rcases List.mem_cons.mp hmem with h3 | h4
          · exact h (h3.symm)
          · exact ih t (by rw [hcs]; exact List.mem_cons_self t rest) h4
        · exact ih s (by rw [hcs]; exact List.mem_cons_of_mem t h2)

theorem splitSeg_no_slash (a : List Char) (ha : '/' ∉ a) : splitSeg a = [a] := by
  induction a with
  | nil => simp [splitSeg]
  | cons c cs ih =>
    have hc : c ≠ '/' := fun h => ha (by simp [h])
    have hcs : '/' ∉ cs := fun h => ha (List.mem_cons_of_mem c h)
    simp only [splitSeg, if_neg hc, ih hcs]

theorem splitSeg_slash_append (a t : List Char) (ha : '/' ∉ a) :
    splitSeg (a ++ '/' :: t) = a :: splitSeg t := by
  induction a with
  | nil => simp [splitSeg]
  | cons c cs ih =>
    have hc : c ≠ '/' := fun h => ha (by simp [h])
    have hcs : '/' ∉ cs := fun h => ha (List.mem_cons_of_mem c h)
    simp only [List.cons_append, splitSeg, if_neg hc, List.append_eq, ih hcs]

theorem splitSeg_joinSegs (segs : List Seg) (hns : ∀ s ∈ segs, '/' ∉ s)
    (hne : segs ≠ []) : splitSeg (joinSegs segs) = segs := by
  induction segs with
  | nil => exact absurd rfl hne
  | cons a rest ih =>
    cases rest with
    | nil =>
      simp only [joinSegs]
      exact splitSeg_no_slash a (hns a (List.mem_cons_self a []))
    | cons b rest2 =>
      simp only [joinSegs]
      rw [splitSeg_slash_append a _ (hns a (List.mem_cons_self a _))]
      congr 1
      exact ih (fun s hs => hns s (List.mem_cons_of_mem a hs)) (by simp)

theorem normAbsSegs_output (l acc : List Seg)
    (hacc : ∀ c ∈ acc, cleanSeg c ∧ '/' ∉ c)
    (hl : ∀ c ∈ l, '/' ∉ c) :
    ∀ c ∈ normAbsSegs l acc, cleanSeg c ∧ '/' ∉ c := by
  induction l generalizing acc with
  | nil =>
    intro c hc
    simp only [normAbsSegs, List.mem_reverse] at hc
    exact hacc c hc
  | cons x xs ih =>
    intro c hc
    by_cases h1 : x = [] ∨ x = ['.']
    · simp only [normAbsSegs, if_pos h1] at hc
      exact ih acc hacc (fun d hd => hl d (List.mem_cons_of_mem x hd)) c hc
    · by_cases h2 : x = ['.', '.']
      · simp only [normAbsSegs, if_neg h1, if_pos h2] at hc
        refine ih acc.tail (fun d hd => hacc d (List.mem_of_mem_tail hd))
          (fun d hd => hl d (List.mem_cons_of_mem x hd)) c hc
      · simp only [normAbsSegs, if_neg h1, if_neg h2] at hc
        refine ih (x :: acc) (fun d hd => ?_)
          (fun d hd => hl d (List.mem_cons_of_mem x hd)) c hc
        rcases List.mem_cons.mp hd with h3 | h4
        · subst h3
          refine ⟨⟨fun h => h1 (Or.inl h), fun h => h1 (Or.inr h), h2⟩, ?_⟩
          exact hl d (List.mem_cons_self d xs)
        · exact hacc d h4

theorem normAbsSegs_of_clean (l : List Seg) (hl : ∀ c ∈ l, cleanSeg c) :
    ∀ acc, normAbsSegs l acc = acc.reverse ++ l := by
  induction l with
  | nil => intro acc; simp [normAbsSegs]
  | cons x xs ih =>
    intro acc
    have hx := hl x (List.mem_cons_self x xs)
    have h1 : ¬(x = [] ∨ x = ['.']) := by
      rintro (h | h)
      · exact hx.1 h
      · exact hx.2.1 h
    simp only [normAbsSegs, if_neg h1, if_neg hx.2.2]
    rw [ih (fun c hc => hl c (List.mem_cons_of_mem x hc)) (x :: acc)]
    simp

theorem normAbsSegs_cons_nil (l : List Seg) (acc : List Seg) :
    normAbsSegs ([] :: l) acc = normAbsSegs l acc := by
  simp [normAbsSegs]

theorem normpathAbs_idem (p : String) : normpathAbs (normpathAbs p) = normpathAbs p := by
  unfold normpathAbs
  set segs := normAbsSegs (splitSeg p.toList) [] with hsegs
  have hclean : ∀ c ∈ segs, cleanSeg c ∧ '/' ∉ c := by
    rw [hsegs]
    exact normAbsSegs_output _ [] (by simp) (mem_splitSeg_no_slash _)
  have htl : (String.mk ('/' :: joinSegs segs)).toList = '/' :: joinSegs segs := rfl
  rw [htl]
  have hsplit : splitSeg ('/' :: joinSegs segs) = [] :: splitSeg (joinSegs segs) := by
    simp [splitSeg]
  rw [hsplit, normAbsSegs_cons_nil]
  cases hs : segs with
  | nil => rfl
  | cons a rest =>
    rw [← hs]
    rw [splitSeg_joinSegs segs (fun s hsm => (hclean s hsm).2) (by rw [hs]; simp)]
    rw [normAbsSegs_of_clean segs (fun c hc => (hclean c hc).1) []]
    simp

theorem normpathAbs_isAbs (p : String) : isAbsStr (normpathAbs p) = true := by
  simp [isAbsStr, normpathAbs]

theorem abspath_eq_normpathAbs (cwd p : String) :
    ∃ q, abspath cwd p = normpathAbs q := by
  unfold abspath
  by_cases h : isAbsStr p
  · exact ⟨p, by simp [h]⟩
  · exact ⟨cwd ++ "/" ++ p, by simp [h]⟩

theorem abspath_isAbs (cwd p : String) : isAbsStr (abspath cwd p) = true := by
  obtain ⟨q, hq⟩ := abspath_eq_normpathAbs cwd p
  rw [hq]
  exact normpathAbs_isAbs q

theorem abspath_idem (cwd p : String) :
    abspath cwd (abspath cwd p) = abspath cwd p := by
  obtain ⟨q, hq⟩ := abspath_eq_normpathAbs cwd p
  rw [hq]
  unfold abspath
  rw [if_pos (normpathAbs_isAbs q)]
  exact normpathAbs_idem q

theorem splitSeg_append_slash (l : List Char) :
    splitSeg (l ++ ['/']) = splitSeg l ++ [[]] := by
  induction l with
  | nil => rfl
  | cons c cs ih =>
    by_cases h : c = '/'
    · simp [splitSeg, h, ih]
    · simp only [List.cons_append, splitSeg, if_neg h, List.append_eq, ih]
      cases hcs : splitSeg cs with
      | nil => exact absurd hcs (splitSeg_ne_nil cs)
      | cons s rest => simp

theorem normAbsSegs_append_nil (l : List Seg) :
    ∀ acc, normAbsSegs (l ++ [[]]) acc = normAbsSegs l acc := by
  induction l with
  | nil => intro acc; rfl
  | cons x xs ih =>
    intro acc
    by_cases h1 : x = [] ∨ x = ['.']
    · simp only [List.cons_append, normAbsSegs, if_pos h1, List.append_eq, ih]
    · by_cases h2 : x = ['.', '.']
      · simp only [List.cons_append, normAbsSegs, if_neg h1, if_pos h2, List.append_eq, ih]
      · simp only [List.cons_append, normAbsSegs, if_neg h1, if_neg h2, List.append_eq, ih]

theorem string_toList_append (a b : String) : (a ++ b).toList = a.toList ++ b.toList := rfl

theorem string_toList_eq_nil (p : String) : p.toList = [] ↔ p = "" := by
  constructor
  · intro h
    cases p with
    | mk d => cases h; rfl
  · intro h; rw [h]; rfl

theorem abspath_trailing_slash (cwd p : String) (hp : p ≠ "") :
    abspath cwd (p ++ "/") = abspath cwd p := by
  have htl : (p ++ "/").toList = p.toList ++ ['/'] := string_toList_append p "/"
  have hnorm : ∀ q r : String, q.toList = r.toList ++ ['/'] →
      normpathAbs q = normpathAbs r := by
    intro q r hq
    unfold normpathAbs
    rw [hq, splitSeg_append_slash, normAbsSegs_append_nil]
  have hptl : p.toList ≠ [] := fun h => hp ((string_toList_eq_nil p).mp h)
  have habs : isAbsStr (p ++ "/") = isAbsStr p := by
    unfold isAbsStr
    rw [htl]
    cases hpt : p.toList with
    | nil => exact absurd hpt hptl
    | cons c cs => simp
  unfold abspath
  rw [habs]
  by_cases h : isAbsStr p
  · rw [if_pos h, if_pos h]
    exact hnorm (p ++ "/") p htl
  · rw [if_neg h, if_neg h]
    apply hnorm
    show (cwd ++ "/" ++ (p ++ "/")).toList = (cwd ++ "/" ++ p).toList ++ ['/']
    have hslash : ("/" : String).toList = ['/'] := rfl
    simp only [string_toList_append, hslash, List.append_assoc]

/-! ## Filesystem and GitPython environment model -/

/-- Metadata of one git repository stored in the filesystem model. -/
structure GitMeta where
  bare : Bool
  heads : List String
  remotes : List String
deriving DecidableEq, Repr

/-- Model of a GitPython `Repo` object as the code observes it:
    `working_dir` is the (absolute) path the object was opened from,
    `heads` are the local branch names, `remotes` the remote names. -/
structure GitRepo where
  working_dir : String
  bare : Bool
  heads : List String
  remotes : List String
deriving DecidableEq, Repr

/-- Filesystem state: the current working directory, a table of whole-path
    symbolic links, the directories, the regular files, the permission-denied
    paths and the paths holding valid git metadata.  All table keys are real
    (post-symlink) absolute normalised paths, except `symlinks` whose keys
    are the link paths themselves. -/
structure FS where
  cwd : String
  symlinks : List (String × String)
  dirs : List String
  files : List String
  denied : List String
  repoMeta : List (String × GitMeta)
deriving DecidableEq, Repr

/-- Association-list lookup by string key. -/
def assocLookup {α : Type} : List (String × α) → String → Option α
  | [], _ => none
  | (k, v) :: rest, s => if k = s then some v else assocLookup rest s

/-- Resolve a whole-path symbolic link, one step. -/
def resolve (fs : FS) (p : String) : String :=
  match assocLookup fs.symlinks p with
  | some t => t
  | none => p

/-- Model of Python `os.path.exists`: absolutise against the working
    directory, follow a symbolic link, then consult the tables. -/
def os_exists (fs : FS) (p : String) : Bool :=
  let q := resolve fs (abspath fs.cwd p)
  decide (q ∈ fs.dirs ∨ q ∈ fs.files)

/-- Model of Python `os.path.isdir`. -/
def os_isdir (fs : FS) (p : String) : Bool :=
  decide (resolve fs (abspath fs.cwd p) ∈ fs.dirs)

/-- Python exception classes distinguished by the code in `utility.get_repo`. -/
inductive PyExc where
  | invalidGitRepository
  | noSuchPath
  | permissionError
  | otherError
deriving DecidableEq, Repr

/-- Model of the GitPython `Repo(path)` constructor: it absolutises the given
    path itself, follows a symbolic link to find the metadata, raises for a
    permission-denied or metadata-free path, and on success records the
    absolutised — NOT symlink-resolved — path as the working directory. -/
def gitRepoCtor (fs : FS) (p : String) : Except PyExc GitRepo :=
  let a := abspath fs.cwd p
  let q := resolve fs a
  if q ∈ fs.denied then .error .permissionError
  else
    match assocLookup fs.repoMeta q with
    | some m => .ok { working_dir := a, bare := m.bare, heads := m.heads, remotes := m.remotes }
    | none => .error .invalidGitRepository

/-- Definition following the words of the specification, for comparison with
    the code: the canonical path of a candidate with symbolic links resolved
    (the behaviour of `os.path.realpath`), which the specification asserts
    for `canonicalPath`. -/
def spec_realpath (fs : FS) (p : String) : String :=
  resolve fs (abspath fs.cwd p)

/-! ## utility.get_repo -/

/-- A Python value passed to `get_repo`: either a string, or a non-string
    value of which only the truthiness is relevant. -/
inductive PyVal where
  | pyStr (s : String)
  | pyOther (truthy : Bool)
deriving DecidableEq, Repr

/-- Python truthiness of a `PyVal`: a string is truthy when nonempty. -/
def pyTruthy : PyVal → Bool
  | .pyStr s => if s = "" then false else true
  | .pyOther t => t

/-- Python `isinstance(v, str)`. -/
def isStr : PyVal → Bool
  | .pyStr _ => true
  | .pyOther _ => false

/-- Embedding of `utility.get_repo` (src/ghmcp/utility.py).  The checks run
    in the order of the source: falsy input, non-string input, absolutise,
    existence, directory, then the `Repo` constructor inside try/except
    where every exception is caught and collapsed to `None`.  The result is
    `.ok` for a normal return and `.error` for a propagated exception. -/
def get_repo (fs : FS) (v : PyVal) : Except PyExc (Option GitRepo) :=
  if pyTruthy v = false then .ok none
  else
    match v with
    | .pyOther _ => .ok none
    | .pyStr path =>
      let abs_path := abspath fs.cwd path
      if os_exists fs abs_path = false then .ok none
      else if os_isdir fs abs_path = false then .ok none
      else
        match gitRepoCtor fs abs_path with
        | .ok repo => .ok (some repo)
        | .error _ => .ok none

/-- The probe result on a string candidate, as an option. -/
def probeRepo (fs : FS) (p : String) : Option GitRepo :=
  match get_repo fs (.pyStr p) with
  | .ok o => o
  | .error _ => none

/-- Whether the probe succeeds on a string candidate. -/
def probeOk (fs : FS) (p : String) : Bool :=
  (probeRepo fs p).isSome

/-! ## server.GitHubRepoIndexer -/

/-- Embedding of the loop body of `GitHubRepoIndexer.__init__`
    (src/ghmcp/server.py): for each path in input order, skip it when it
    does not exist or is not a directory, probe it with `get_repo`, and
    append the repository on success.  `get_repo` never raises (proved
    below), so a raising probe result is unreachable and treated as a
    skipped path. -/
def indexRepos (fs : FS) : List String → List GitRepo
  | [] => []
  | path :: rest =>
    if os_exists fs path = false then indexRepos fs rest
    else if os_isdir fs path = false then indexRepos fs rest
    else
      match get_repo fs (.pyStr path) with
      | .ok (some repo) => repo :: indexRepos fs rest
      | _ => indexRepos fs rest

/-- State of a constructed `GitHubRepoIndexer`. -/
structure GitHubRepoIndexer where
  repo_paths : List String
  repos : List GitRepo
deriving DecidableEq, Repr

/-! ## server.MCPGitHubServer and main.start_server -/

/-- State of a constructed `MCPGitHubServer`: the name and, when
    construction reached indexing, the indexer. -/
structure MCPGitHubServer where
  name : String
  indexer : Option GitHubRepoIndexer
deriving DecidableEq, Repr

/-- The two `ValueError` conditions of `MCPGitHubServer.__init__`. -/
inductive ServerErr where
  | valueErrorEmptyPaths
  | valueErrorBadName
deriving DecidableEq, Repr

/-- Embedding of `MCPGitHubServer.__init__` (src/ghmcp/server.py): an empty
    path list raises `ValueError` first, then an empty or non-string name
    raises `ValueError`; only then is the indexer constructed and stored. -/
def serverCtor (fs : FS) (repo_paths : List String) (name : PyVal) :
    Except ServerErr MCPGitHubServer :=
  if repo_paths.isEmpty then .error .valueErrorEmptyPaths
  else if pyTruthy name = false then .error .valueErrorBadName
  else
    match name with
    | .pyOther _ => .error .valueErrorBadName
    | .pyStr n =>
      .ok { name := n,
            indexer := some { repo_paths := repo_paths, repos := indexRepos fs repo_paths } }

/-- The externally visible record of one repository. -/
structure LibraryRecord where
  name : String
  path : String
  branches : List String
deriving DecidableEq, Repr

/-- The last slash-separated segment of a path, as in the test assertion
    comparing against the Python expression splitting on the slash and
    taking the final piece. -/
def lastSeg (s : String) : String :=
  String.mk ((splitSeg s.toList).getLastD [])

/-- Projection of a repository handle to a `LibraryRecord`: the name is the
    last path segment of the canonical path, the path is the canonical path
    and the branches are the local branch names. -/
def toLibraryRecord (r : GitRepo) : LibraryRecord :=
  { name := lastSeg r.working_dir, path := r.working_dir, branches := r.heads }

/-- The query component error of the specification. -/
inductive QueryErr where
  | notInitialized
deriving DecidableEq, Repr

/-- Modelled from the spec: `MCPGitHubServer.query_libraries` is called by
    `main.start_server` and by the tests but its definition is absent from
    the sources.  Following the specification of `listLibraries`, it is a
    pure function of the stored index state that maps each retained handle
    to one record, touches no filesystem state (the `fs` argument is
    ignored), and fails with `NotInitialized` exactly when the index was
    never successfully constructed. -/
def query_libraries (_fs : FS) (server : MCPGitHubServer) :
    Except QueryErr (List LibraryRecord) :=
  match server.indexer with
  | none => .error .notInitialized
  | some idx => .ok (idx.repos.map toLibraryRecord)

/-- The error surfaced by `main.start_server`: every failure inside it is
    wrapped into `RuntimeError("Server startup failed: ...")`. -/
inductive StartErr where
  | runtimeError
deriving DecidableEq, Repr

/-- Embedding of `main.start_server` (src/ghmcp/main.py): construct the
    server, query the libraries, raise `ValueError` when no library was
    found, and wrap every raised error into a `RuntimeError`. -/
def start_server (fs : FS) (repo_paths : List String) (name : PyVal) :
    Except StartErr MCPGitHubServer :=
  match serverCtor fs repo_paths name with
  | .error _ => .error .runtimeError
  | .ok server =>
    match query_libraries fs server with
    | .error _ => .error .runtimeError
    | .ok libraries =>
      if libraries.isEmpty then .error .runtimeError else .ok server

/-! ## Supporting lemmas -/

theorem os_exists_abspath (fs : FS) (p : String) :
    os_exists fs (abspath fs.cwd p) = os_exists fs p := by
  unfold os_exists
  rw [abspath_idem]

theorem os_isdir_abspath (fs : FS) (p : String) :
    os_isdir fs (abspath fs.cwd p) = os_isdir fs p := by
  unfold os_isdir
  rw [abspath_idem]

theorem get_repo_never_raises (fs : FS) (v : PyVal) :
    ∃ o : Option GitRepo, get_repo fs v = .ok o := by
  unfold get_repo
  by_cases h1 : pyTruthy v = false
  · exact ⟨none, by rw [if_pos h1]⟩
  · rw [if_neg h1]
    cases v with
    | pyOther t => exact ⟨none, rfl⟩
    | pyStr path =>
      by_cases h2 : os_exists fs (abspath fs.cwd path) = false
      · exact ⟨none, by simp only [if_pos h2]⟩
      · by_cases h3 : os_isdir fs (abspath fs.cwd path) = false
        · exact ⟨none, by simp only [if_neg h2, if_pos h3]⟩
        · simp only [if_neg h2, if_neg h3]
          cases hc : gitRepoCtor fs (abspath fs.cwd path) with
          | ok repo => exact ⟨some repo, rfl⟩
          | error e => exact ⟨none, rfl⟩

theorem probeRepo_eq_ok (fs : FS) (p : String) :
    get_repo fs (.pyStr p) = .ok (probeRepo fs p) := by
  obtain ⟨o, ho⟩ := get_repo_never_raises fs (.pyStr p)
  rw [ho]
  unfold probeRepo
  rw [ho]

theorem probeRepo_none_of_not_exists (fs : FS) (p : String)
    (h : os_exists fs p = false) : probeRepo fs p = none := by
  unfold probeRepo get_repo
  by_cases h1 : pyTruthy (.pyStr p) = false
  · rw [if_pos h1]
  · rw [if_neg h1]
    have h2 : os_exists fs (abspath fs.cwd p) = false := by
      rw [os_exists_abspath]; exact h
    simp only [if_pos h2]

theorem probeRepo_none_of_not_isdir (fs : FS) (p : String)
    (h : os_isdir fs p = false) : probeRepo fs p = none := by
  unfold probeRepo get_repo
  by_cases h1 : pyTruthy (.pyStr p) = false
  · rw [if_pos h1]
  · rw [if_neg h1]
    have h2 : os_isdir fs (abspath fs.cwd p) = false := by
      rw [os_isdir_abspath]; exact h
    by_cases h3 : os_exists fs (abspath fs.cwd p) = false
    · simp only [if_pos h3]
    · simp only [if_neg h3, if_pos h2]

/-- The indexer retains exactly the successful probes, in input order:
    its existence and directory prechecks are subsumed by the probe. -/
theorem indexRepos_eq_filterMap (fs : FS) (paths : List String) :
    indexRepos fs paths = paths.filterMap (probeRepo fs) := by
  induction paths with
  | nil => rfl
  | cons p rest ih =>
    unfold indexRepos
    simp only [List.filterMap_cons]
    by_cases h1 : os_exists fs p = false
    · rw [if_pos h1, probeRepo_none_of_not_exists fs p h1, ih]
    · rw [if_neg h1]
      by_cases h2 : os_isdir fs p = false
      · rw [if_pos h2, probeRepo_none_of_not_isdir fs p h2, ih]
      · rw [if_neg h2, probeRepo_eq_ok fs p]
        cases ho : probeRepo fs p with
        | none => simp only [ih]
        | some repo => simp only [ih]

theorem length_filterMap_probe (fs : FS) (paths : List String) :
    (paths.filterMap (probeRepo fs)).length = paths.countP (fun p => probeOk fs p) := by
  induction paths with
  | nil => rfl
  | cons p rest ih =>
    simp only [List.filterMap_cons, List.countP_cons]
    cases ho : probeRepo fs p with
    | none =>
      have : probeOk fs p = false := by unfold probeOk; rw [ho]; rfl
      simp [this, ih]
    | some repo =>
      have : probeOk fs p = true := by unfold probeOk; rw [ho]; rfl
      simp [this, ih]

/-! ## Concrete demonstration filesystem -/

/-- Git metadata of the demonstration repository. -/
def repoAMeta : GitMeta :=
  { bare := false, heads := ["main", "feature-x"], remotes := ["origin"] }

/-- Demonstration filesystem: one valid repository at /srv/repoA, a symbolic
    link to it at /home/user/link, a plain directory, a permission-denied
    directory and a regular file. -/
def fsDemo : FS :=
  { cwd := "/home/user"
    symlinks := [("/home/user/link", "/srv/repoA")]
    dirs := ["/", "/home", "/home/user", "/srv", "/srv/repoA", "/srv/plain", "/srv/locked"]
    files := ["/srv/notes.txt"]
    denied := ["/srv/locked"]
    repoMeta := [("/srv/repoA", repoAMeta)] }

/-- The handle produced by probing /srv/repoA directly. -/
def repoARepo : GitRepo :=
  { working_dir := "/srv/repoA", bare := false,
    heads := ["main", "feature-x"], remotes := ["origin"] }

/-- The handle produced by probing the symbolic link /home/user/link. -/
def linkRepo : GitRepo :=
  { working_dir := "/home/user/link", bare := false,
    heads := ["main", "feature-x"], remotes := ["origin"] }

example : probeRepo fsDemo "/srv/repoA" = some repoARepo := by decide
example : probeRepo fsDemo "/home/user/link" = some linkRepo := by decide
example : probeRepo fsDemo "link" = some linkRepo := by decide
example : probeRepo fsDemo "/srv/plain" = none := by decide
example : probeRepo fsDemo "/srv/locked" = none := by decide
example : probeRepo fsDemo "/srv/notes.txt" = none := by decide
example : probeRepo fsDemo "/nope" = none := by decide
example : spec_realpath fsDemo "/home/user/link" = "/srv/repoA" := by decide
example : abspath "/home/user" "/srv/x/../repoA/" = "/srv/repoA" := by decide
example : lastSeg "/srv/repoA" = "repoA" := by decide
example : indexRepos fsDemo ["/srv/repoA", "/srv/plain", "/home/user/link"] =
    [repoARepo, linkRepo] := by decide

/-! ## Further supporting lemmas -/

instance exceptDecEq {e a : Type} [DecidableEq e] [DecidableEq a] :
    DecidableEq (Except e a) := fun x y =>
  match x, y with
  | .ok v, .ok w =>
    if h : v = w then isTrue (by rw [h]) else isFalse (fun hc => h (by injection hc))
  | .ok _, .error _ => isFalse (fun hc => Except.noConfusion hc)
  | .error _, .ok _ => isFalse (fun hc => Except.noConfusion hc)
  | .error v, .error w =>
    if h : v = w then isTrue (by rw [h]) else isFalse (fun hc => h (by injection hc))

theorem get_repo_pyOther (fs : FS) (t : Bool) :
    get_repo fs (.pyOther t) = .ok none := by
  cases t <;> rfl

theorem get_repo_pyStr (fs : FS) (p : String) :
    get_repo fs (.pyStr p) =
      if p = "" then .ok none
      else
        if os_exists fs (abspath fs.cwd p) = false then .ok none
        else if os_isdir fs (abspath fs.cwd p) = false then .ok none
        else
          match gitRepoCtor fs (abspath fs.cwd p) with
          | .ok repo => .ok (some repo)
          | .error _ => .ok none := by
  unfold get_repo
  by_cases hp : p = ""
  · rw [if_pos (show pyTruthy (.pyStr p) = false by simp [pyTruthy, hp]), if_pos hp]
  · rw [if_neg (show ¬pyTruthy (.pyStr p) = false by simp [pyTruthy, hp]), if_neg hp]

theorem gitRepoCtor_working_dir (fs : FS) (q : String) (r : GitRepo)
    (h : gitRepoCtor fs q = .ok r) : r.working_dir = abspath fs.cwd q := by
  simp only [gitRepoCtor] at h
  split at h
  · exact Except.noConfusion h
  · split at h
    · injection h with h2
      rw [← h2]
    · exact Except.noConfusion h

theorem probeRepo_some_ctor (fs : FS) (p : String) (r : GitRepo)
    (h : probeRepo fs p = some r) :
    gitRepoCtor fs (abspath fs.cwd p) = .ok r := by
  unfold probeRepo at h
  rw [get_repo_pyStr] at h
  by_cases hp : p = ""
  · rw [if_pos hp] at h
    exact Option.noConfusion h
  · rw [if_neg hp] at h
    by_cases h2 : os_exists fs (abspath fs.cwd p) = false
    · rw [if_pos h2] at h
      exact Option.noConfusion h
    · rw [if_neg h2] at h
      by_cases h3 : os_isdir fs (abspath fs.cwd p) = false
      · rw [if_pos h3] at h
        exact Option.noConfusion h
      · rw [if_neg h3] at h
        cases hc : gitRepoCtor fs (abspath fs.cwd p) with
        | ok repo =>
          rw [hc] at h
          have h4 : some repo = some r := h
          injection h4 with h5
          rw [h5]
        | error e =>
          rw [hc] at h
          exact Option.noConfusion h

/-- An input in one of the failure categories the specification lists for
    the probe: empty string, non-string value, nonexistent path, existing
    non-directory, or a path whose version-control metadata cannot be
    opened (invalid repository or permission denied). -/
def invalidInput (fs : FS) : PyVal → Bool
  | .pyOther _ => true
  | .pyStr p =>
    if p = "" then true
    else if os_exists fs (abspath fs.cwd p) = false then true
    else if os_isdir fs (abspath fs.cwd p) = false then true
    else
      match gitRepoCtor fs (abspath fs.cwd p) with
      | .ok _ => false
      | .error _ => true

/-! ## Claim theorems -/

/-- C2: for every filesystem state and every input value — including the
empty string, a non-string value, a nonexistent path, a regular file, a
directory without version-control metadata and a permission-denied path —
`get_repo` never propagates an exception, and on every such invalid input
it returns `None`. -/
theorem c2_get_repo_total_and_absent (fs : FS) (v : PyVal) :
    (∃ o : Option GitRepo, get_repo fs v = .ok o) ∧
    (invalidInput fs v = true → get_repo fs v = .ok none) := by
  refine ⟨get_repo_never_raises fs v, fun hinv => ?_⟩
  cases v with
  | pyOther t => exact get_repo_pyOther fs t
  | pyStr p =>
    rw [get_repo_pyStr]
    by_cases hp : p = ""
    · rw [if_pos hp]
    · rw [if_neg hp]
      have hinv2 : (if p = "" then true
          else if os_exists fs (abspath fs.cwd p) = false then true
          else if os_isdir fs (abspath fs.cwd p) = false then true
          else
            match gitRepoCtor fs (abspath fs.cwd p) with
            | .ok _ => false
            | .error _ => true) = true := hinv
      rw [if_neg hp] at hinv2
      by_cases h2 : os_exists fs (abspath fs.cwd p) = false
      · rw [if_pos h2]
      · rw [if_neg h2]
        rw [if_neg h2] at hinv2
        by_cases h3 : os_isdir fs (abspath fs.cwd p) = false
        · rw [if_pos h3]
        · rw [if_neg h3]
          rw [if_neg h3] at hinv2
          cases hc : gitRepoCtor fs (abspath fs.cwd p) with
          | ok repo =>
            rw [hc] at hinv2
            exact Bool.noConfusion hinv2
          | error e => rfl

/-- C2 witness: in the demonstration filesystem the permission-denied
directory is an invalid input and the probe returns `None` on it. -/
theorem c2_witness :
    invalidInput fsDemo (.pyStr "/srv/locked") = true ∧
    get_repo fsDemo (.pyStr "/srv/locked") = .ok none :=
  ⟨by decide, (c2_get_repo_total_and_absent fsDemo (.pyStr "/srv/locked")).2 (by decide)⟩

/-- C3: index construction is the stable filter of the candidate list by
the probe: it retains exactly the handles of the candidates whose probe
succeeded, in the same relative order, with no placeholder for an invalid
entry — it equals `List.filterMap` of the probe over the input order. -/
theorem c3_stable_filter (fs : FS) (paths : List String) :
    indexRepos fs paths = paths.filterMap (probeRepo fs) :=
  indexRepos_eq_filterMap fs paths

/-- C5 amended: for every path whose probe succeeds, the canonical path of
the handle is the absolute form of the candidate with relative segments
resolved lexically (Python `os.path.abspath`); symbolic links are NOT
resolved. -/
theorem c5_canonical_path_abspath (fs : FS) (p : String) (r : GitRepo)
    (h : probeRepo fs p = some r) :
    r.working_dir = abspath fs.cwd p ∧ isAbsStr r.working_dir = true := by
  have hc := probeRepo_some_ctor fs p r h
  have hw := gitRepoCtor_working_dir fs (abspath fs.cwd p) r hc
  rw [abspath_idem] at hw
  exact ⟨hw, by rw [hw]; exact abspath_isAbs fs.cwd p⟩

/-- C5 counterexample: probing the symbolic link /home/user/link to the
repository /srv/repoA succeeds, but the canonical path of the handle is the
symbolic-link path itself, not the resolved real path that the claim
demands. -/
theorem c5_counterexample :
    probeRepo fsDemo "/home/user/link" = some linkRepo ∧
    linkRepo.working_dir = "/home/user/link" ∧
    spec_realpath fsDemo "/home/user/link" = "/srv/repoA" ∧
    linkRepo.working_dir ≠ spec_realpath fsDemo "/home/user/link" :=
  ⟨by decide, by decide, by decide, by decide⟩

/-- C5 witness for the amended theorem: probing the symbolic link relative
to the working directory yields the absolutised, non-symlink-resolved
canonical path. -/
theorem c5_canonical_path_abspath_witness :
    probeRepo fsDemo "link" = some linkRepo ∧
    linkRepo.working_dir = abspath fsDemo.cwd "link" ∧
    isAbsStr linkRepo.working_dir = true :=
  ⟨by decide,
   (c5_canonical_path_abspath fsDemo "link" linkRepo (by decide)).1,
   (c5_canonical_path_abspath fsDemo "link" linkRepo (by decide)).2⟩

/-- C6: the probe performs its checks in the order of the source with a
short-circuit on the first failure: a falsy input yields absent before
anything else, a non-string input yields absent, then — on the path
resolved to absolute form — a nonexistent path yields absent, an existing
non-directory yields absent, a failing metadata open yields absent, and
only when every check passes is the handle returned. -/
theorem c6_check_order (fs : FS) (v : PyVal) :
    (pyTruthy v = false → get_repo fs v = .ok none) ∧
    (isStr v = false → get_repo fs v = .ok none) ∧
    (∀ p, v = .pyStr p →
      (os_exists fs (abspath fs.cwd p) = false → get_repo fs v = .ok none) ∧
      (os_isdir fs (abspath fs.cwd p) = false → get_repo fs v = .ok none) ∧
      (∀ e, gitRepoCtor fs (abspath fs.cwd p) = .error e → get_repo fs v = .ok none) ∧
      (∀ r, pyTruthy v = true → os_exists fs (abspath fs.cwd p) = true →
        os_isdir fs (abspath fs.cwd p) = true →
        gitRepoCtor fs (abspath fs.cwd p) = .ok r → get_repo fs v = .ok (some r))) := by
  refine ⟨fun h1 => ?_, fun h2 => ?_, fun p hp => ?_⟩
  · unfold get_repo
    rw [if_pos h1]
  · cases v with
    | pyOther t => exact get_repo_pyOther fs t
    | pyStr s => exact Bool.noConfusion h2
  · subst hp
    refine ⟨fun he => ?_, fun hd => ?_, fun e hc => ?_, fun r ht he hd hc => ?_⟩
    · rw [get_repo_pyStr]
      by_cases hp : p = ""
      · rw [if_pos hp]
      · rw [if_neg hp, if_pos he]
    · rw [get_repo_pyStr]
      by_cases hp : p = ""
      · rw [if_pos hp]
      · rw [if_neg hp]
        by_cases he : os_exists fs (abspath fs.cwd p) = false
        · rw [if_pos he]
        · rw [if_neg he, if_pos hd]
    · rw [get_repo_pyStr]
      by_cases hp : p = ""
      · rw [if_pos hp]
      · rw [if_neg hp]
        by_cases he : os_exists fs (abspath fs.cwd p) = false
        · rw [if_pos he]
        · rw [if_neg he]
          by_cases hd : os_isdir fs (abspath fs.cwd p) = false
          · rw [if_pos hd]
          · rw [if_neg hd, hc]
    · rw [get_repo_pyStr]
      have hp : ¬p = "" := by
        intro hp0
        rw [hp0] at ht
        exact Bool.noConfusion ht
      have he2 : ¬os_exists fs (abspath fs.cwd p) = false := by
        rw [he]; exact Bool.noConfusion
      have hd2 : ¬os_isdir fs (abspath fs.cwd p) = false := by
        rw [hd]; exact Bool.noConfusion
      rw [if_neg hp, if_neg he2, if_neg hd2, hc]

/-- C6 witness: every branch of the check order exercised in the
demonstration filesystem, ending with the successful probe of /srv/repoA. -/
theorem c6_check_order_witness :
    get_repo fsDemo (.pyStr "") = .ok none ∧
    get_repo fsDemo (.pyOther true) = .ok none ∧
    get_repo fsDemo (.pyStr "/nope") = .ok none ∧
    get_repo fsDemo (.pyStr "/srv/notes.txt") = .ok none ∧
    get_repo fsDemo (.pyStr "/srv/plain") = .ok none ∧
    get_repo fsDemo (.pyStr "/srv/repoA") = .ok (some repoARepo) :=
  ⟨(c6_check_order fsDemo (.pyStr "")).1 (by decide),
   (c6_check_order fsDemo (.pyOther true)).2.1 (by decide),
   ((c6_check_order fsDemo (.pyStr "/nope")).2.2 "/nope" rfl).1 (by decide),
   ((c6_check_order fsDemo (.pyStr "/srv/notes.txt")).2.2 "/srv/notes.txt" rfl).2.1 (by decide),
   ((c6_check_order fsDemo (.pyStr "/srv/plain")).2.2 "/srv/plain" rfl).2.2.1
     .invalidGitRepository (by decide),
   ((c6_check_order fsDemo (.pyStr "/srv/repoA")).2.2 "/srv/repoA" rfl).2.2.2
     repoARepo (by decide) (by decide) (by decide) (by decide)⟩

theorem serverCtor_ok_shape (fs : FS) (paths : List String) (name : PyVal)
    (server : MCPGitHubServer) (h : serverCtor fs paths name = .ok server) :
    paths ≠ [] ∧
    server.indexer = some { repo_paths := paths, repos := indexRepos fs paths } := by
  unfold serverCtor at h
  by_cases h1 : paths.isEmpty
  · rw [if_pos h1] at h
    exact Except.noConfusion h
  · rw [if_neg h1] at h
    by_cases h2 : pyTruthy name = false
    · rw [if_pos h2] at h
      exact Except.noConfusion h
    · rw [if_neg h2] at h
      cases name with
      | pyOther t => exact Except.noConfusion h
      | pyStr nm =>
        injection h with h3
        refine ⟨fun h0 => ?_, ?_⟩
        · rw [h0] at h1
          exact h1 rfl
        · rw [← h3]

theorem filterMap_probe_nil (fs : FS) (paths : List String)
    (h : ∀ p ∈ paths, probeOk fs p = false) :
    paths.filterMap (probeRepo fs) = [] := by
  induction paths with
  | nil => rfl
  | cons a l ih =>
    have ha : probeRepo fs a = none := by
      have hb := h a (List.mem_cons_self a l)
      unfold probeOk at hb
      cases ho : probeRepo fs a with
      | none => rfl
      | some r => rw [ho] at hb; exact Bool.noConfusion hb
    rw [List.filterMap_cons, ha]
    exact ih (fun p hp => h p (List.mem_cons_of_mem a hp))

/-- A second filesystem state, used to exhibit independence from the
    filesystem. -/
def fsOther : FS :=
  { cwd := "/", symlinks := [], dirs := [], files := [], denied := [], repoMeta := [] }

/-- A constructed server holding one repository, for the witnesses. -/
def demoServer : MCPGitHubServer :=
  { name := "ghmcp-server",
    indexer := some { repo_paths := ["/srv/repoA"], repos := [repoARepo] } }

/-- A server whose index was never successfully constructed. -/
def uninitServer : MCPGitHubServer :=
  { name := "ghmcp-server", indexer := none }

/-- C1: for every path list containing at least one candidate whose probe
succeeds, and a nonempty server name, server construction succeeds and the
query operation returns the ordered sequence holding exactly one record per
retained valid repository — its length is the number of candidates whose
probe succeeded — and zero records for invalid candidates. -/
theorem c1_query_libraries_count (fs : FS) (paths : List String) (n : String)
    (hn : n ≠ "") (hvalid : ∃ p ∈ paths, probeOk fs p = true) :
    ∃ server, start_server fs paths (.pyStr n) = .ok server ∧
      query_libraries fs server =
        .ok ((paths.filterMap (probeRepo fs)).map toLibraryRecord) ∧
      ∀ libs, query_libraries fs server = .ok libs →
        libs.length = paths.countP (fun p => probeOk fs p) := by
  obtain ⟨p, hp, hpo⟩ := hvalid
  have hne : paths ≠ [] := fun h0 => by
    rw [h0] at hp
    exact List.not_mem_nil p hp
  have hemp : paths.isEmpty = false := by
    cases paths with
    | nil => exact absurd rfl hne
    | cons a l => rfl
  have hL := indexRepos_eq_filterMap fs paths
  refine ⟨⟨n, some ⟨paths, paths.filterMap (probeRepo fs)⟩⟩, ?_, rfl, ?_⟩
  · have hctor : serverCtor fs paths (.pyStr n) =
        .ok ⟨n, some ⟨paths, paths.filterMap (probeRepo fs)⟩⟩ := by
      rw [← hL]
      unfold serverCtor
      rw [if_neg (show ¬paths.isEmpty = true by rw [hemp]; exact Bool.noConfusion)]
      rw [if_neg (show ¬pyTruthy (.pyStr n) = false by simp [pyTruthy, hn])]
    have hq : query_libraries fs ⟨n, some ⟨paths, paths.filterMap (probeRepo fs)⟩⟩ =
        .ok ((paths.filterMap (probeRepo fs)).map toLibraryRecord) := rfl
    obtain ⟨r, hr⟩ : ∃ r, probeRepo fs p = some r := Option.isSome_iff_exists.mp hpo
    have hmem : r ∈ paths.filterMap (probeRepo fs) :=
      List.mem_filterMap.mpr ⟨p, hp, hr⟩
    have hempty : ((paths.filterMap (probeRepo fs)).map toLibraryRecord).isEmpty = false := by
      cases hfm : paths.filterMap (probeRepo fs) with
      | nil => rw [hfm] at hmem; exact absurd hmem (List.not_mem_nil r)
      | cons a l => rfl
    unfold start_server
    simp only [hctor, hq]
    rw [if_neg (show ¬((paths.filterMap (probeRepo fs)).map toLibraryRecord).isEmpty = true
      by rw [hempty]; exact Bool.noConfusion)]
  · intro libs hq2
    have h3 : (Except.ok ((paths.filterMap (probeRepo fs)).map toLibraryRecord) :
        Except QueryErr (List LibraryRecord)) = .ok libs := hq2
    injection h3 with h4
    rw [← h4, List.length_map, length_filterMap_probe]

/-- C1 witness: a mixed path list with two valid candidates and one invalid
one yields a server whose query returns exactly two records. -/
theorem c1_query_libraries_count_witness :
    ("test-server" : String) ≠ "" ∧
    (∃ p ∈ (["/srv/repoA", "/nope", "/home/user/link"] : List String),
      probeOk fsDemo p = true) ∧
    (∃ server,
      start_server fsDemo ["/srv/repoA", "/nope", "/home/user/link"]
        (.pyStr "test-server") = .ok server ∧
      query_libraries fsDemo server =
        .ok (((["/srv/repoA", "/nope", "/home/user/link"] : List String).filterMap
          (probeRepo fsDemo)).map toLibraryRecord) ∧
      ∀ libs, query_libraries fsDemo server = .ok libs →
        libs.length = (["/srv/repoA", "/nope", "/home/user/link"] : List String).countP
          (fun p => probeOk fsDemo p)) :=
  ⟨by decide, ⟨"/srv/repoA", by decide, by decide⟩,
   c1_query_libraries_count fsDemo ["/srv/repoA", "/nope", "/home/user/link"]
     "test-server" (by decide) ⟨"/srv/repoA", by decide, by decide⟩⟩

/-- C4: constructing the server from an empty path list, or from a list in
which every candidate fails the probe, fails at the `start_server` boundary
with a caller-visible error; and whenever construction succeeds, the
resulting index holds at least one repository. -/
theorem c4_empty_or_all_invalid (fs : FS) (paths : List String) (name : PyVal) :
    ((paths = [] ∨ ∀ p ∈ paths, probeOk fs p = false) →
      start_server fs paths name = .error .runtimeError) ∧
    (∀ server, start_server fs paths name = .ok server →
      ∃ idx, server.indexer = some idx ∧ idx.repos ≠ []) := by
  constructor
  · intro h
    unfold start_server
    cases hctor : serverCtor fs paths name with
    | error e => rfl
    | ok server =>
      obtain ⟨hne, hidx⟩ := serverCtor_ok_shape fs paths name server hctor
      rcases h with h0 | hall
      · exact absurd h0 hne
      · have hrepos : indexRepos fs paths = [] := by
          rw [indexRepos_eq_filterMap]
          exact filterMap_probe_nil fs paths hall
        have hq : query_libraries fs server = .ok [] := by
          unfold query_libraries
          rw [hidx, hrepos]
          rfl
        simp only [hq]
        rfl
  · intro server h
    unfold start_server at h
    cases hctor : serverCtor fs paths name with
    | error e =>
      rw [hctor] at h
      exact Except.noConfusion h
    | ok server0 =>
      rw [hctor] at h
      obtain ⟨hne, hidx⟩ := serverCtor_ok_shape fs paths name server0 hctor
      have hq : query_libraries fs server0 =
          .ok ((indexRepos fs paths).map toLibraryRecord) := by
        unfold query_libraries
        rw [hidx]
      have h3 : (match query_libraries fs server0 with
          | .error _ => (Except.error StartErr.runtimeError :
              Except StartErr MCPGitHubServer)
          | .ok libraries =>
            if libraries.isEmpty then .error .runtimeError else .ok server0) =
          .ok server := h
      rw [hq] at h3
      have h4 : (if ((indexRepos fs paths).map toLibraryRecord).isEmpty
          then (Except.error StartErr.runtimeError : Except StartErr MCPGitHubServer)
          else .ok server0) = .ok server := h3
      by_cases hemp : ((indexRepos fs paths).map toLibraryRecord).isEmpty
      · rw [if_pos hemp] at h4
        exact Except.noConfusion h4
      · rw [if_neg hemp] at h4
        injection h4 with h2
        refine ⟨{ repo_paths := paths, repos := indexRepos fs paths }, ?_, ?_⟩
        · rw [← h2]
          exact hidx
        · intro h0
          have h5 : indexRepos fs paths = [] := h0
          rw [h5] at hemp
          exact hemp rfl

/-- C4 witness: a path list whose candidates all fail the probe makes
`start_server` fail. -/
theorem c4_empty_or_all_invalid_witness :
    (∀ p ∈ (["/nope", "/srv/plain"] : List String), probeOk fsDemo p = false) ∧
    start_server fsDemo ["/nope", "/srv/plain"] (.pyStr "x") = .error .runtimeError :=
  ⟨by decide,
   (c4_empty_or_all_invalid fsDemo ["/nope", "/srv/plain"] (.pyStr "x")).1
     (Or.inr (by decide))⟩

/-- C7: the query operation is a pure function of the stored index state:
its result does not depend on the filesystem, and two servers with the same
stored index — in particular the same server queried twice with no
reconstruction — yield equal, identically ordered results. -/
theorem c7_query_pure (fs1 fs2 : FS) (s1 s2 : MCPGitHubServer)
    (h : s1.indexer = s2.indexer) :
    query_libraries fs1 s1 = query_libraries fs2 s2 := by
  unfold query_libraries
  rw [h]

/-- C7 witness: querying the demonstration server under two different
filesystem states gives the same result. -/
theorem c7_query_pure_witness :
    demoServer.indexer = demoServer.indexer ∧
    query_libraries fsDemo demoServer = query_libraries fsOther demoServer :=
  ⟨rfl, c7_query_pure fsDemo fsOther demoServer demoServer rfl⟩

/-- C8: querying a server whose index was never successfully constructed
fails with `NotInitialized`; this is the only error the query component
can surface; and a successfully constructed server always holds an index. -/
theorem c8_query_uninit_error (fs : FS) (server : MCPGitHubServer) :
    (server.indexer = none → query_libraries fs server = .error .notInitialized) ∧
    (∀ e, query_libraries fs server = .error e → e = .notInitialized) ∧
    (∀ fs2 paths name s, serverCtor fs2 paths name = .ok s → s.indexer ≠ none) := by
  refine ⟨fun h => ?_, fun e he => ?_, fun fs2 paths name s hs => ?_⟩
  · unfold query_libraries
    rw [h]
  · cases e
    rfl
  · obtain ⟨_, hidx⟩ := serverCtor_ok_shape fs2 paths name s hs
    rw [hidx]
    exact fun h0 => Option.noConfusion h0

/-- C8 witness: the never-constructed server fails with `NotInitialized`. -/
theorem c8_query_uninit_error_witness :
    uninitServer.indexer = none ∧
    query_libraries fsDemo uninitServer = .error .notInitialized :=
  ⟨rfl, (c8_query_uninit_error fsDemo uninitServer).1 rfl⟩

/-- C9: every record returned by the query operation has its name equal to
the last path segment of its path; and the probe — hence the canonical path
and the derived name — is unchanged by a trailing separator on the
candidate. -/
theorem c9_name_last_segment (fs : FS) :
    (∀ server libs, query_libraries fs server = .ok libs →
      ∀ rec ∈ libs, rec.name = lastSeg rec.path) ∧
    (∀ p, p ≠ "" → get_repo fs (.pyStr (p ++ "/")) = get_repo fs (.pyStr p)) := by
  constructor
  · intro server libs hq rec hrec
    cases hidx : server.indexer with
    | none =>
      unfold query_libraries at hq
      rw [hidx] at hq
      exact Except.noConfusion hq
    | some idx =>
      unfold query_libraries at hq
      rw [hidx] at hq
      injection hq with h2
      rw [← h2] at hrec
      obtain ⟨r, hr, hrec2⟩ := List.mem_map.mp hrec
      rw [← hrec2]
      rfl
  · intro p hp
    have happ : p ++ "/" ≠ "" := by
      intro h0
      have h1 : p.toList ++ ['/'] = ([] : List Char) := by
        have h2 : (p ++ "/").toList = ("" : String).toList := by rw [h0]
        exact h2
      exact absurd (List.append_eq_nil.mp h1).2 (by simp)
    rw [get_repo_pyStr, get_repo_pyStr, if_neg happ, if_neg hp,
      abspath_trailing_slash fs.cwd p hp]

/-- C9 witness: the demonstration server record derives its name from the
last segment of its path, and the probe ignores a trailing slash. -/
theorem c9_name_last_segment_witness :
    query_libraries fsDemo demoServer = .ok [toLibraryRecord repoARepo] ∧
    (toLibraryRecord repoARepo).name = lastSeg (toLibraryRecord repoARepo).path ∧
    get_repo fsDemo (.pyStr "/srv/repoA/") = get_repo fsDemo (.pyStr "/srv/repoA") :=
  ⟨rfl,
   (c9_name_last_segment fsDemo).1 demoServer [toLibraryRecord repoARepo] rfl
     (toLibraryRecord repoARepo) (List.mem_cons_self _ _),
   (c9_name_last_segment fsDemo).2 "/srv/repoA" (by decide)⟩

/-- C10: the server constructor raises `ValueError` whenever the path list
is empty, or the name is empty or not a string; the check precedes any
probing, so in these cases the outcome is independent of the filesystem
state and no index state is created. -/
theorem c10_ctor_validation (fs1 fs2 : FS) (paths : List String) (name : PyVal) :
    (paths = [] → serverCtor fs1 paths name = .error .valueErrorEmptyPaths) ∧
    (paths ≠ [] → (pyTruthy name = false ∨ isStr name = false) →
      serverCtor fs1 paths name = .error .valueErrorBadName) ∧
    ((paths = [] ∨ pyTruthy name = false ∨ isStr name = false) →
      serverCtor fs1 paths name = serverCtor fs2 paths name) := by
  refine ⟨fun h => ?_, fun hne hbad => ?_, fun h => ?_⟩
  · subst h
    rfl
  · unfold serverCtor
    have hemp : paths.isEmpty = false := by
      cases paths with
      | nil => exact absurd rfl hne
      | cons a l => rfl
    rw [if_neg (show ¬paths.isEmpty = true by rw [hemp]; exact Bool.noConfusion)]
    rcases hbad with hb | hb
    · rw [if_pos hb]
    · by_cases ht : pyTruthy name = false
      · rw [if_pos ht]
      · rw [if_neg ht]
        cases name with
        | pyStr s => exact Bool.noConfusion hb
        | pyOther t => rfl
  · rcases h with h | h | h
    · subst h
      rfl
    · unfold serverCtor
      by_cases hemp : paths.isEmpty
      · rw [if_pos hemp, if_pos hemp]
      · rw [if_neg hemp, if_neg hemp, if_pos h, if_pos h]
    · unfold serverCtor
      by_cases hemp : paths.isEmpty
      · rw [if_pos hemp, if_pos hemp]
      · rw [if_neg hemp, if_neg hemp]
        by_cases ht : pyTruthy name = false
        · rw [if_pos ht, if_pos ht]
        · rw [if_neg ht, if_neg ht]
          cases name with
          | pyStr s => exact absurd h (by simp [isStr])
          | pyOther t => rfl

/-- C10 witness: the empty path list, the empty name and a non-string name
each make the constructor raise before any probing, independently of the
filesystem. -/
theorem c10_ctor_validation_witness :
    serverCtor fsDemo [] (.pyStr "x") = .error .valueErrorEmptyPaths ∧
    serverCtor fsDemo ["/srv/repoA"] (.pyStr "") = .error .valueErrorBadName ∧
    serverCtor fsDemo [] (.pyOther true) = serverCtor fsOther [] (.pyOther true) :=
  ⟨(c10_ctor_validation fsDemo fsOther [] (.pyStr "x")).1 rfl,
   (c10_ctor_validation fsDemo fsOther ["/srv/repoA"] (.pyStr "")).2.1
     (by decide) (Or.inl (by decide)),
   (c10_ctor_validation fsDemo fsOther [] (.pyOther true)).2.2 (Or.inl rfl)⟩

end Ghmcp
